import Mathlib

/-!
Verification model of the `workergroup` Go package (src/workergroup.go).

A `Group` is a template of replicated workers plus ordered cleaners.
`Start` spawns the worker goroutines and one Completion Collector
(`Instance.run`), which receives exactly `total` worker results on the `rtn`
channel, aggregates errors (a later non-nil result overwrites the stored one),
closes the `abort` channel on the first error, runs the cleaners in
registration order, replaces a nil error by the `NonErrorAbort` sentinel when
the abort channel is closed, and finally closes the `done` channel.

Modelling choices:
* Go `error` values arising in a run are `Option (Err α)`: `none` is Go `nil`,
  `some Err.nonErrorAbort` is the package sentinel `NonErrorAbort`, and
  `some (Err.workerFail a)` is a caller-defined worker failure.
* A closed channel is a `Bool` flag (`true` = closed); closing is the
  set-if-unset operation the source guards with `select`/`default`.
* The collector is sequential Go code; its interaction with the rest of the
  program is the order in which events reach it.  A run of the receive loop is
  a list of atomic events: `Event.recv e` (a worker result read from `rtn`,
  lines 148-158) interleaved with `Event.abortCall` (an external
  `Instance.Abort()`, lines 212-218).  An external `Abort()` landing between
  the end of the receive loop and the sentinel check (lines 160-171) is the
  `abort2` flag of `Instance.runModel`.
* For the temporal claims the run also emits a log of `Action`s: one `recvA`
  per received result, one `cleanA i` per executed cleaner, one final `doneA`.
* Cleaners mutate the shared `data` value by side effect; they are modelled as
  state transformers `δ → δ` applied sequentially.
* `runtime.NumCPU()` is an explicit argument of `Group.Add`.
-/

namespace Workergroup

/-- Non-nil Go `error` values occurring in a run of this package:
the package sentinel `NonErrorAbort` (workergroup.go line 57) or an opaque
caller-defined failure returned by a worker. -/
inductive Err (α : Type) where
  | nonErrorAbort : Err α
  | workerFail (a : α) : Err α
deriving DecidableEq

/-- State of a Go `Instance` (workergroup.go lines 130-144): whether the
`abort` channel is closed, whether the `done` channel is closed, and the
stored error. -/
structure Instance (α : Type) where
  abort : Bool
  done : Bool
  err : Option (Err α)
deriving DecidableEq

/-- The `Instance` as created by `Group.Start` (line 103): both channels open,
`err` nil. -/
def Instance.init {α : Type} : Instance α := ⟨false, false, none⟩

/-- `Instance.Abort` (lines 212-218): close the abort channel unless it is
already closed (`select`/`default` guard). -/
def Instance.Abort {α : Type} (s : Instance α) : Instance α :=
  if s.abort then s else { s with abort := true }

/-- Body of the collector's receive loop for one value read from `rtn`
(lines 149-157): a nil result is ignored; a non-nil result overwrites `err`
and closes the abort channel if it is not already closed. -/
def Instance.recvOne {α : Type} (s : Instance α) (e : Option (Err α)) : Instance α :=
  match e with
  | none => s
  | some e1 =>
    let s1 := { s with err := some e1 }
    if s1.abort then s1 else { s1 with abort := true }

/-- An atomic event reaching the `Instance` during the collector's receive
loop: a worker result received on `rtn`, or an external `Instance.Abort()`
call. -/
inductive Event (α : Type) where
  | recv (e : Option (Err α))
  | abortCall
deriving DecidableEq

/-- Effect of one event on the `Instance` state. -/
def stepEvent {α : Type} (s : Instance α) : Event α → Instance α
  | .recv e => s.recvOne e
  | .abortCall => s.Abort

/-- Observable actions of a run, for the temporal claims: a worker result
arriving at the collector, an external abort call, the execution of the
`i`-th registered cleaner, and the closing of the `done` channel. -/
inductive Action (α : Type) where
  | recvA (e : Option (Err α))
  | abortA
  | cleanA (i : Nat)
  | doneA
deriving DecidableEq

/-- The log entry of an event. -/
def actOf {α : Type} : Event α → Action α
  | .recv e => .recvA e
  | .abortCall => .abortA

/-- The collector's receive loop (lines 148-158) with interleaved external
abort calls, returning the resulting state and the action log. -/
def loopLog {α : Type} : Instance α → List (Event α) → Instance α × List (Action α)
  | s, [] => (s, [])
  | s, ev :: tr =>
    let p := loopLog (stepEvent s ev) tr
    (p.1, actOf ev :: p.2)

/-- The cleaner loop (lines 160-162): cleaners run sequentially, each applied
to the `data` value left by the previous one; `i` is the registration index of
the first cleaner in the list, used only for the log. -/
def runCleaners (α : Type) {δ : Type} : List (δ → δ) → δ → Nat → δ × List (Action α)
  | [], d, _ => (d, [])
  | c :: cs, d, i =>
    let p := runCleaners α cs (c d) (i + 1)
    (p.1, Action.cleanA i :: p.2)

/-- `Instance.run` (lines 147-175): the receive loop over the event trace
`tr`, then the cleaners, then (if `abort2`, an external `Abort()` landing
after the loop and before the check) the sentinel check replacing a nil error
by `NonErrorAbort` when the abort channel is closed (lines 164-171), and
finally the closing of the `done` channel (line 174).  Returns the final
`Instance` state, the final `data` value and the action log.  In an actual run
the trace carries exactly `total` `recv` events. -/
def Instance.runModel {α δ : Type} (s0 : Instance α) (tr : List (Event α))
    (cleaners : List (δ → δ)) (d : δ) (abort2 : Bool) :
    Instance α × δ × List (Action α) :=
  let p1 := loopLog s0 tr
  let p2 := runCleaners α cleaners d 0
  let s1 := if abort2 then p1.1.Abort else p1.1
  let s2 :=
    if s1.abort then
      match s1.err with
      | none => { s1 with err := some Err.nonErrorAbort }
      | some _ => s1
    else s1
  ({ s2 with done := true }, p2.1, p1.2 ++ p2.2 ++ [Action.doneA])

/-- `Instance.Wait` (lines 185-188): blocks until `done` is closed, then
returns `err`.  `none` means the call is still blocked. -/
def Instance.Wait {α : Type} (s : Instance α) : Option (Option (Err α)) :=
  if s.done then some s.err else none

/-- `Instance.Done` (lines 192-199): non-blocking poll of the done channel. -/
def Instance.Done {α : Type} (s : Instance α) : Bool := s.done

/-- `Group` (lines 72-76): replica counts, workers (opaque values of type
`ω`), cleaners. -/
structure Group (ω δ : Type) where
  counts : List Int
  workers : List ω
  cleaners : List (δ → δ)

/-- `Group.Add` (lines 82-89): if `count ≤ 0` substitute `runtime.NumCPU()`
(passed here as the explicit argument `numCPU`), then append the worker and
the count. -/
def Group.Add {ω δ : Type} (wg : Group ω δ) (numCPU : Nat) (count : Int) (worker : ω) :
    Group ω δ :=
  let count1 := if count ≤ 0 then (numCPU : Int) else count
  { wg with workers := wg.workers ++ [worker], counts := wg.counts ++ [count1] }

/-- `Group.AddCleaner` (lines 92-94). -/
def Group.AddCleaner {ω δ : Type} (wg : Group ω δ) (c : δ → δ) : Group ω δ :=
  { wg with cleaners := wg.cleaners ++ [c] }

/-- Number of worker goroutines launched by `Group.Start` (lines 110-116):
the outer loop ranges over `wg.workers`, the inner loop launches
`wg.counts[i]` copies (none when the count is negative, which `Add` never
stores). -/
def Group.total {ω δ : Type} (wg : Group ω δ) : Nat :=
  (wg.counts.take wg.workers.length).foldl (fun acc c => acc + c.toNat) 0

/-- Observable behaviour of `Group.Start` (lines 102-121) together with the
collector goroutine it launches: the fresh `Instance.init` is run on the event
trace of the launched goroutines.  In an actual run `tr` carries exactly
`wg.total` `recv` events. -/
def Group.StartRun {ω δ α : Type} (wg : Group ω δ) (d : δ) (tr : List (Event α))
    (abort2 : Bool) : Instance α × δ × List (Action α) :=
  Instance.runModel Instance.init tr wg.cleaners d abort2

/-- `Group.Run` (lines 124-127): `return wg.Start(data).Wait()`. -/
def Group.RunModel {ω δ α : Type} (wg : Group ω δ) (d : δ) (tr : List (Event α))
    (abort2 : Bool) : Option (Option (Err α)) :=
  (wg.StartRun d tr abort2).1.Wait

/-- Modelled from the spec: "`Run(data) → error`: equivalent to `Start(data)`
immediately followed by blocking `Wait()` on the resulting Instance" — the
composition of `Start` (with its collector run) and `Instance.Wait`, written
independently of `Group.RunModel` for the refinement claim. -/
def Group.RunSpec {ω δ α : Type} (wg : Group ω δ) (d : δ) (tr : List (Event α))
    (abort2 : Bool) : Option (Option (Err α)) :=
  Instance.Wait (Instance.runModel Instance.init tr wg.cleaners d abort2).1

/-- The worker results of a trace, in collector arrival order. -/
def recvResults {α : Type} (tr : List (Event α)) : List (Option (Err α)) :=
  tr.filterMap fun ev => match ev with | .recv e => some e | .abortCall => none

/-- Number of worker results in a trace. -/
def countRecv {α : Type} (tr : List (Event α)) : Nat :=
  (recvResults tr).length

/-- Last non-nil error of a result list (the overwrite aggregation of the
receive loop), `none` when all results are nil. -/
def lastNonNil {α : Type} (rs : List (Option (Err α))) : Option (Err α) :=
  rs.foldl (fun acc r => match r with | none => acc | some e => some e) none

/-- Bool discriminators on actions, for counting. -/
def Action.isRecvA {α : Type} : Action α → Bool
  | .recvA _ => true
  | _ => false

def Action.isDoneA {α : Type} : Action α → Bool
  | .doneA => true
  | _ => false

/-- Whether the abort channel ends up closed in a run starting from an open
abort channel: an external `Abort()` happened (during the loop or after it),
or some worker result was non-nil. -/
def abortSignal {α : Type} (tr : List (Event α)) (abort2 : Bool) : Bool :=
  abort2 || tr.any fun ev => match ev with
    | .recv (some _) => true
    | .recv none => false
    | .abortCall => true

/-! ### Characterization of the receive loop -/

theorem loopLog_fst_err {α : Type} (tr : List (Event α)) (s : Instance α) :
    (loopLog s tr).1.err =
      (recvResults tr).foldl
        (fun acc r => match r with | none => acc | some e => some e) s.err := by
  induction tr generalizing s with
  | nil => rfl
  | cons ev tr ih =>
    cases ev with
    | recv e =>
      cases e with
      | none =>
        simpa [loopLog, stepEvent, Instance.recvOne, recvResults] using ih s
      | some e1 =>
        have h := ih (stepEvent s (.recv (some e1)))
        have he : (stepEvent s (.recv (some e1))).err = some e1 := by
          simp only [stepEvent, Instance.recvOne]
          split <;> rfl
        simpa [loopLog, recvResults, he] using h
    | abortCall =>
      have h := ih (stepEvent s .abortCall)
      have he : (stepEvent s .abortCall).err = s.err := by
        simp only [stepEvent, Instance.Abort]
        split <;> rfl
      simpa [loopLog, recvResults, he] using h

theorem loopLog_fst_abort {α : Type} (tr : List (Event α)) (s : Instance α) :
    (loopLog s tr).1.abort =
      (s.abort || tr.any fun ev => match ev with
        | .recv (some _) => true
        | .recv none => false
        | .abortCall => true) := by
  induction tr generalizing s with
  | nil => simp [loopLog]
  | cons ev tr ih =>
    cases ev with
    | recv e =>
      cases e with
      | none =>
        simpa [loopLog, stepEvent, Instance.recvOne, List.any_cons] using
          ih s
      | some e1 =>
        have h := ih (stepEvent s (.recv (some e1)))
        have he : (stepEvent s (.recv (some e1))).abort = true := by
          simp only [stepEvent, Instance.recvOne]
          split
          · next hcl => exact hcl
          · rfl
        rw [loopLog] at *
        simp [List.any_cons, h, he]
    | abortCall =>
      have h := ih (stepEvent s .abortCall)
      have he : (stepEvent s .abortCall).abort = true := by
        simp only [stepEvent, Instance.Abort]
        split
        · next hcl => exact hcl
        · rfl
      rw [loopLog] at *
      simp [List.any_cons, h, he]

theorem loopLog_fst_done {α : Type} (tr : List (Event α)) (s : Instance α) :
    (loopLog s tr).1.done = s.done := by
  induction tr generalizing s with
  | nil => rfl
  | cons ev tr ih =>
    have h := ih (stepEvent s ev)
    have he : (stepEvent s ev).done = s.done := by
      cases ev with
      | recv e =>
        cases e with
        | none => rfl
        | some e1 =>
          simp only [stepEvent, Instance.recvOne]
          split <;> rfl
      | abortCall =>
        simp only [stepEvent, Instance.Abort]
        split <;> rfl
    rw [loopLog]
    simpa [he] using h

theorem loopLog_snd {α : Type} (tr : List (Event α)) (s : Instance α) :
    (loopLog s tr).2 = tr.map actOf := by
  induction tr generalizing s with
  | nil => rfl
  | cons ev tr ih =>
    rw [loopLog]
    simpa using ih (stepEvent s ev)

/-! ### Characterization of the cleaner loop -/

theorem runCleaners_fst {α δ : Type} (cs : List (δ → δ)) (d : δ) (i : Nat) :
    (runCleaners α cs d i).1 = cs.foldl (fun x c => c x) d := by
  induction cs generalizing d i with
  | nil => rfl
  | cons c cs ih =>
    rw [runCleaners]
    simpa using ih (c d) (i + 1)

theorem runCleaners_snd {α δ : Type} (cs : List (δ → δ)) (d : δ) (i : Nat) :
    (runCleaners α cs d i).2 = (List.range' i cs.length).map Action.cleanA := by
  induction cs generalizing d i with
  | nil => rfl
  | cons c cs ih =>
    rw [runCleaners]
    simp only [List.length_cons, List.range'_succ, List.map_cons]
    simpa using ih (c d) (i + 1)

/-! ### The overwrite aggregation -/

theorem foldl_overwrite {α : Type} (rs : List (Option (Err α))) (a : Option (Err α)) :
    rs.foldl (fun acc r => match r with | none => acc | some e => some e) a =
      match lastNonNil rs with | none => a | some e => some e := by
  induction rs generalizing a with
  | nil => rfl
  | cons r rs ih =>
    cases r with
    | none =>
      have h1 : lastNonNil ((none : Option (Err α)) :: rs) = lastNonNil rs := rfl
      simp only [List.foldl_cons, h1]
      exact ih a
    | some e =>
      have h1 : lastNonNil (some e :: rs) =
          List.foldl (fun acc r => match r with | none => acc | some e1 => some e1)
            (some e) rs := rfl
      simp only [List.foldl_cons, h1, ih]
      cases lastNonNil rs <;> rfl

/-! ### Field behaviour of `Instance.Abort` -/

theorem Abort_abort {α : Type} (s : Instance α) : s.Abort.abort = true := by
  unfold Instance.Abort
  split
  · next h => exact h
  · rfl

theorem Abort_err {α : Type} (s : Instance α) : s.Abort.err = s.err := by
  unfold Instance.Abort
  split <;> rfl

theorem Abort_done {α : Type} (s : Instance α) : s.Abort.done = s.done := by
  unfold Instance.Abort
  split <;> rfl

/-! ### Characterization of a full collector run -/

theorem runModel_fst {α δ : Type} (s0 : Instance α) (tr : List (Event α))
    (cleaners : List (δ → δ)) (d : δ) (abort2 : Bool) :
    (Instance.runModel s0 tr cleaners d abort2).1 =
      { abort := abort2 || (loopLog s0 tr).1.abort,
        done := true,
        err := match (loopLog s0 tr).1.err with
               | none =>
                 if abort2 || (loopLog s0 tr).1.abort then some Err.nonErrorAbort else none
               | some e => some e } := by
  unfold Instance.runModel
  cases habort2 : abort2 <;>
    cases hA : (loopLog s0 tr).1.abort <;>
      cases hE : (loopLog s0 tr).1.err <;>
        simp [Instance.Abort, hA, hE]

theorem loopLog_init_err {α : Type} (tr : List (Event α)) :
    (loopLog (Instance.init (α := α)) tr).1.err = lastNonNil (recvResults tr) := by
  rw [loopLog_fst_err]
  have h := foldl_overwrite (recvResults tr) ((Instance.init (α := α)).err)
  rw [h]
  cases lastNonNil (recvResults tr) <;> rfl

theorem loopLog_init_abort {α : Type} (tr : List (Event α)) (abort2 : Bool) :
    (abort2 || (loopLog (Instance.init (α := α)) tr).1.abort) = abortSignal tr abort2 := by
  rw [loopLog_fst_abort]
  unfold abortSignal
  rfl

theorem runModel_init_err {α δ : Type} (tr : List (Event α)) (cleaners : List (δ → δ))
    (d : δ) (abort2 : Bool) :
    (Instance.runModel Instance.init tr cleaners d abort2).1.err =
      match lastNonNil (recvResults tr) with
      | some e => some e
      | none => if abortSignal tr abort2 then some Err.nonErrorAbort else none := by
  rw [runModel_fst]
  simp only [loopLog_init_err, loopLog_init_abort]
  cases lastNonNil (recvResults tr) <;> rfl

theorem runModel_init_abort {α δ : Type} (tr : List (Event α)) (cleaners : List (δ → δ))
    (d : δ) (abort2 : Bool) :
    (Instance.runModel Instance.init tr cleaners d abort2).1.abort = abortSignal tr abort2 := by
  rw [runModel_fst]
  exact loopLog_init_abort tr abort2

theorem runModel_fst_done {α δ : Type} (s0 : Instance α) (tr : List (Event α))
    (cleaners : List (δ → δ)) (d : δ) (abort2 : Bool) :
    (Instance.runModel s0 tr cleaners d abort2).1.done = true := by
  rw [runModel_fst]

theorem runModel_snd_data {α δ : Type} (s0 : Instance α) (tr : List (Event α))
    (cleaners : List (δ → δ)) (d : δ) (abort2 : Bool) :
    (Instance.runModel s0 tr cleaners d abort2).2.1 =
      cleaners.foldl (fun x c => c x) d := by
  unfold Instance.runModel
  exact runCleaners_fst cleaners d 0

theorem runModel_log {α δ : Type} (s0 : Instance α) (tr : List (Event α))
    (cleaners : List (δ → δ)) (d : δ) (abort2 : Bool) :
    (Instance.runModel s0 tr cleaners d abort2).2.2 =
      tr.map actOf ++ (List.range cleaners.length).map Action.cleanA ++ [Action.doneA] := by
  show (loopLog s0 tr).2 ++ (runCleaners α cleaners d 0).2 ++ [Action.doneA] =
    tr.map actOf ++ (List.range cleaners.length).map Action.cleanA ++ [Action.doneA]
  rw [loopLog_snd, runCleaners_snd, List.range_eq_range']

/-! ### Further helper lemmas -/

theorem Wait_of_done {α : Type} (s : Instance α) (h : s.done = true) :
    s.Wait = some s.err := by
  unfold Instance.Wait
  rw [h]
  rfl

theorem lastNonNil_eq_none_iff {α : Type} (rs : List (Option (Err α))) :
    lastNonNil rs = none ↔ ∀ r ∈ rs, r = none := by
  induction rs with
  | nil => simp [lastNonNil]
  | cons r rs ih =>
    cases r with
    | none =>
      have h1 : lastNonNil ((none : Option (Err α)) :: rs) = lastNonNil rs := rfl
      simp only [h1, List.mem_cons]
      constructor
      · intro h r1 hr1
        rcases hr1 with hr1 | hr1
        · exact hr1
        · exact (ih.mp h) r1 hr1
      · intro h
        exact ih.mpr fun r1 hr1 => h r1 (Or.inr hr1)
    | some e =>
      have h1 : lastNonNil (some e :: rs) =
          List.foldl (fun acc r => match r with | none => acc | some e1 => some e1)
            (some e) rs := rfl
      rw [h1, foldl_overwrite]
      constructor
      · intro hc
        cases hlast : lastNonNil rs <;> rw [hlast] at hc <;> simp at hc
      · intro hall
        have := hall (some e) (by simp)
        simp at this

theorem lastNonNil_mem {α : Type} {rs : List (Option (Err α))} {e : Err α}
    (h : lastNonNil rs = some e) : some e ∈ rs := by
  induction rs with
  | nil => simp [lastNonNil] at h
  | cons r rs ih =>
    cases r with
    | none =>
      have h1 : lastNonNil ((none : Option (Err α)) :: rs) = lastNonNil rs := rfl
      rw [h1] at h
      exact List.mem_cons_of_mem _ (ih h)
    | some e1 =>
      have h1 : lastNonNil (some e1 :: rs) =
          List.foldl (fun acc r => match r with | none => acc | some e2 => some e2)
            (some e1) rs := rfl
      rw [h1, foldl_overwrite] at h
      cases hlast : lastNonNil rs with
      | none =>
        rw [hlast] at h
        simp only [Option.some.injEq] at h
        rw [h] at *
        exact List.mem_cons_self _ _
      | some e2 =>
        rw [hlast] at h
        simp only [Option.some.injEq] at h
        rw [h] at hlast
        exact List.mem_cons_of_mem _ (ih hlast)

theorem filter_isRecvA_map_actOf {α : Type} (tr : List (Event α)) :
    ((tr.map actOf).filter Action.isRecvA).length = countRecv tr := by
  induction tr with
  | nil => rfl
  | cons ev tr ih =>
    cases ev with
    | recv e =>
      show ((Action.recvA e :: tr.map actOf).filter Action.isRecvA).length =
        countRecv (Event.recv e :: tr)
      rw [List.filter_cons_of_pos (by rfl)]
      have h2 : countRecv (Event.recv e :: tr) = countRecv tr + 1 := by
        unfold countRecv recvResults
        simp [List.filterMap_cons]
      rw [h2, List.length_cons, ih]
    | abortCall =>
      show ((Action.abortA :: tr.map actOf).filter Action.isRecvA).length =
        countRecv (Event.abortCall :: tr)
      rw [List.filter_cons_of_neg (by simp [Action.isRecvA])]
      have h2 : countRecv (Event.abortCall :: tr) = countRecv tr := by
        unfold countRecv recvResults
        simp [List.filterMap_cons]
      rw [h2, ih]

theorem iterate_Abort_err {α : Type} (s : Instance α) (n : Nat) :
    (Nat.iterate Instance.Abort n s).err = s.err ∧
      (Nat.iterate Instance.Abort n s).done = s.done := by
  induction n with
  | zero => exact ⟨rfl, rfl⟩
  | succ n ih =>
    rw [Function.iterate_succ_apply']
    exact ⟨by rw [Abort_err]; exact ih.1, by rw [Abort_done]; exact ih.2⟩

/-! ### Claim theorems -/

/-- C1: in every run in which more than one worker returns a non-nil error,
the error returned by `Wait` equals the last non-nil error received by the
Completion Collector on its result channel, in collector arrival order, each
later non-nil error unconditionally overwriting the stored one. -/
theorem C1_last_error_wins {α δ : Type} (tr : List (Event α)) (cleaners : List (δ → δ))
    (d : δ) (abort2 : Bool)
    (h : 2 ≤ ((recvResults tr).filter Option.isSome).length) :
    (Instance.runModel Instance.init tr cleaners d abort2).1.Wait =
      some (lastNonNil (recvResults tr)) ∧
    (lastNonNil (recvResults tr)).isSome = true := by
  have hsome : lastNonNil (recvResults tr) ≠ none := by
    intro hn
    have hall := (lastNonNil_eq_none_iff _).mp hn
    have hpos : 0 < ((recvResults tr).filter Option.isSome).length := by omega
    obtain ⟨a, ha⟩ := List.exists_mem_of_length_pos hpos
    have hmem := List.mem_filter.mp ha
    rw [hall a hmem.1] at hmem
    simp at hmem
  have hdone := runModel_fst_done (Instance.init (α := α)) tr cleaners d abort2
  have herr := runModel_init_err tr cleaners d abort2
  cases hlast : lastNonNil (recvResults tr) with
  | none => exact absurd hlast hsome
  | some e =>
    rw [hlast] at herr
    exact ⟨by rw [Wait_of_done _ hdone, herr], rfl⟩

/-- C1 witness: two workers fail with E0 then E1 in that arrival order; the
hypothesis and the conclusion hold at this input. -/
theorem C1_witness :
    2 ≤ ((recvResults [Event.recv (some (Err.workerFail 0)),
            Event.recv (some (Err.workerFail 1))]).filter Option.isSome).length ∧
    ((Instance.runModel Instance.init
        [Event.recv (some (Err.workerFail 0)), Event.recv (some (Err.workerFail 1))]
        ([] : List (Unit → Unit)) () false).1.Wait =
      some (lastNonNil (recvResults
        [Event.recv (some (Err.workerFail 0)), Event.recv (some (Err.workerFail 1))])) ∧
    (lastNonNil (recvResults
        [Event.recv (some (Err.workerFail 0)),
          Event.recv (some (Err.workerFail 1))])).isSome = true) :=
  ⟨by decide, C1_last_error_wins _ _ _ _ (by decide)⟩

/-- C2: assuming workers report caller-defined failures (never the sentinel
value itself), `Wait` returns the sentinel `NonErrorAbort` exactly when, at
the point after all cleaners have finished, the Abort Signal is signaled and
no worker has reported a non-nil error. -/
theorem C2_sentinel_iff {α δ : Type} (tr : List (Event α)) (cleaners : List (δ → δ))
    (d : δ) (abort2 : Bool)
    (hgen : ∀ r ∈ recvResults tr, r ≠ some Err.nonErrorAbort) :
    ((Instance.runModel Instance.init tr cleaners d abort2).1.Wait =
        some (some Err.nonErrorAbort)) ↔
      ((Instance.runModel Instance.init tr cleaners d abort2).1.abort = true ∧
        ∀ r ∈ recvResults tr, r = none) := by
  have hdone := runModel_fst_done (Instance.init (α := α)) tr cleaners d abort2
  have herr := runModel_init_err tr cleaners d abort2
  have habort := runModel_init_abort tr cleaners d abort2
  rw [Wait_of_done _ hdone, habort]
  cases hlast : lastNonNil (recvResults tr) with
  | none =>
    rw [hlast] at herr
    have hall := (lastNonNil_eq_none_iff _).mp hlast
    cases hsig : abortSignal tr abort2 with
    | false =>
      rw [hsig] at herr
      simp at herr
      rw [herr]
      constructor
      · intro hc
        simp at hc
      · rintro ⟨hcontra, -⟩
        simp at hcontra
    | true =>
      rw [hsig] at herr
      simp at herr
      rw [herr]
      constructor
      · intro _
        exact ⟨rfl, hall⟩
      · intro _
        rfl
  | some e =>
    rw [hlast] at herr
    rw [herr]
    have hne := hgen _ (lastNonNil_mem hlast)
    constructor
    · intro hc
      simp only [Option.some.injEq] at hc
      exact absurd (by rw [hc]) hne
    · rintro ⟨-, hall⟩
      have := hall _ (lastNonNil_mem hlast)
      simp at this

/-- C2 witness: an external abort followed by the single worker returning nil;
Wait returns the sentinel and the right-hand side of the equivalence holds. -/
theorem C2_witness :
    (∀ r ∈ recvResults [Event.abortCall, Event.recv (none : Option (Err Nat))],
        r ≠ some Err.nonErrorAbort) ∧
    (((Instance.runModel Instance.init
          [Event.abortCall, Event.recv (none : Option (Err Nat))]
          ([] : List (Unit → Unit)) () false).1.Wait =
        some (some Err.nonErrorAbort)) ↔
      ((Instance.runModel Instance.init
          [Event.abortCall, Event.recv (none : Option (Err Nat))]
          ([] : List (Unit → Unit)) () false).1.abort = true ∧
        ∀ r ∈ recvResults [Event.abortCall, Event.recv (none : Option (Err Nat))],
          r = none)) :=
  ⟨by decide, C2_sentinel_iff _ _ _ _ (by decide)⟩

/-- C3 counterexample: a run in which the only launched replica returns nil
but an external `Abort()` arrives during the receive loop; every worker result
is nil, yet `Wait` returns the `NonErrorAbort` sentinel, not nil. -/
theorem C3_counterexample :
    recvResults [Event.recv (none : Option (Err Nat)), Event.abortCall] =
      [(none : Option (Err Nat))] ∧
    (Instance.runModel Instance.init
        [Event.recv (none : Option (Err Nat)), Event.abortCall]
        ([] : List (Unit → Unit)) () false).1.Wait =
      some (some Err.nonErrorAbort) := by
  decide

/-- C3 (amended): for all runs in which every launched worker replica returns
nil AND the Abort Signal is never signaled, `Wait` returns nil; and the done
channel that unblocks `Wait` is closed as the final action of the run, after
every replica return and after all cleaners have executed. -/
theorem C3_all_nil_returns_none {α δ : Type} (tr : List (Event α))
    (cleaners : List (δ → δ)) (d : δ)
    (h1 : ∀ r ∈ recvResults tr, r = none)
    (h2 : abortSignal tr false = false) :
    (Instance.runModel Instance.init tr cleaners d false).1.Wait = some none ∧
    (Instance.runModel Instance.init tr cleaners d false).2.2 =
      tr.map actOf ++ (List.range cleaners.length).map Action.cleanA ++
        [Action.doneA] := by
  have hdone := runModel_fst_done (Instance.init (α := α)) tr cleaners d false
  have herr := runModel_init_err tr cleaners d false
  have hlast : lastNonNil (recvResults tr) = none := (lastNonNil_eq_none_iff _).mpr h1
  rw [hlast, h2] at herr
  simp at herr
  exact ⟨by rw [Wait_of_done _ hdone, herr], runModel_log _ _ _ _ _⟩

/-- C3 witness: one replica returning nil, one cleaner, no abort. -/
theorem C3_witness :
    (∀ r ∈ recvResults [Event.recv (none : Option (Err Nat))], r = none) ∧
    abortSignal [Event.recv (none : Option (Err Nat))] false = false ∧
    ((Instance.runModel Instance.init [Event.recv (none : Option (Err Nat))]
        [fun (x : Unit) => x] () false).1.Wait = some none ∧
    (Instance.runModel Instance.init [Event.recv (none : Option (Err Nat))]
        [fun (x : Unit) => x] () false).2.2 =
      ([Event.recv (none : Option (Err Nat))].map actOf) ++
        (List.range [fun (x : Unit) => x].length).map Action.cleanA ++
        [Action.doneA]) :=
  ⟨by decide, by decide, C3_all_nil_returns_none _ _ _ (by decide) (by decide)⟩

/-- C4: in every execution of an Instance, no cleaner runs before every
worker replica has returned (the log is a prefix of receive/abort events
followed by the cleaner block), cleaners run sequentially in registration
order each to completion before the next starts (the cleaner block is
`cleanA 0, cleanA 1, ...` and the data value is threaded through them in
order), and the Done Signal is set strictly after the last cleaner finishes,
exactly once, as the final step of the collector. -/
theorem C4_ordering {ω δ α : Type} (wg : Group ω δ) (tr : List (Event α)) (d : δ)
    (abort2 : Bool) (h : countRecv tr = wg.total) :
    ∃ pre : List (Action α),
      (wg.StartRun d tr abort2).2.2 =
        pre ++ (List.range wg.cleaners.length).map Action.cleanA ++ [Action.doneA] ∧
      (∀ a ∈ pre, Action.isRecvA a = true ∨ a = Action.abortA) ∧
      (pre.filter Action.isRecvA).length = wg.total ∧
      ((wg.StartRun d tr abort2).2.2.filter Action.isDoneA).length = 1 ∧
      (wg.StartRun d tr abort2).2.1 = wg.cleaners.foldl (fun x c => c x) d := by
  refine ⟨tr.map actOf, ?_, ?_, ?_, ?_, ?_⟩
  · exact runModel_log _ _ _ _ _
  · intro a ha
    obtain ⟨ev, hev, rfl⟩ := List.mem_map.mp ha
    cases ev with
    | recv e => exact Or.inl rfl
    | abortCall => exact Or.inr rfl
  · rw [filter_isRecvA_map_actOf, h]
  · have hlog := runModel_log (Instance.init (α := α)) tr wg.cleaners d abort2
    show ((Instance.runModel Instance.init tr wg.cleaners d abort2).2.2.filter
      Action.isDoneA).length = 1
    rw [hlog, List.filter_append, List.filter_append]
    have h1 : (tr.map actOf).filter Action.isDoneA = [] := by
      rw [List.filter_eq_nil_iff]
      intro a ha
      obtain ⟨ev, hev, rfl⟩ := List.mem_map.mp ha
      cases ev <;> simp [actOf, Action.isDoneA]
    have h2 : ((List.range wg.cleaners.length).map Action.cleanA).filter
        (Action.isDoneA (α := α)) = [] := by
      rw [List.filter_eq_nil_iff]
      intro a ha
      obtain ⟨i, hi, rfl⟩ := List.mem_map.mp ha
      simp [Action.isDoneA]
    rw [h1, h2]
    rfl
  · exact runModel_snd_data _ _ _ _ _

/-- Concrete fixtures for the C4 witness: one worker registered with two
replicas, one cleaner; a trace in which one replica fails and one succeeds. -/
def wgC4 : Group Unit Unit := ⟨[2], [()], [fun x => x]⟩

def trC4 : List (Event Nat) :=
  [Event.recv (some (Err.workerFail 0)), Event.recv none]

/-- C4 witness at the concrete fixtures. -/
theorem C4_witness :
    countRecv trC4 = wgC4.total ∧
    (∃ pre : List (Action Nat),
      (wgC4.StartRun () trC4 false).2.2 =
        pre ++ (List.range wgC4.cleaners.length).map Action.cleanA ++ [Action.doneA] ∧
      (∀ a ∈ pre, Action.isRecvA a = true ∨ a = Action.abortA) ∧
      (pre.filter Action.isRecvA).length = wgC4.total ∧
      ((wgC4.StartRun () trC4 false).2.2.filter Action.isDoneA).length = 1 ∧
      (wgC4.StartRun () trC4 false).2.1 = wgC4.cleaners.foldl (fun x c => c x) ()) :=
  ⟨by decide, C4_ordering wgC4 trC4 () false (by decide)⟩

/-- C5: once the Done Signal is set the error slot is never written again:
after the collector run finishes, any number of further Abort calls (the only
remaining mutators) leaves `err` unchanged, and every Wait call — issued at
any point after completion — returns the identical final value without
blocking. -/
theorem C5_wait_stable {α δ : Type} (tr : List (Event α)) (cleaners : List (δ → δ))
    (d : δ) (abort2 : Bool) (n : Nat) :
    (Instance.runModel Instance.init tr cleaners d abort2).1.done = true ∧
    (Nat.iterate Instance.Abort n
        (Instance.runModel Instance.init tr cleaners d abort2).1).err =
      (Instance.runModel Instance.init tr cleaners d abort2).1.err ∧
    Instance.Wait (Nat.iterate Instance.Abort n
        (Instance.runModel Instance.init tr cleaners d abort2).1) =
      some (Instance.runModel Instance.init tr cleaners d abort2).1.err := by
  have hdone := runModel_fst_done (Instance.init (α := α)) tr cleaners d abort2
  have hit := iterate_Abort_err (Instance.runModel Instance.init tr cleaners d abort2).1 n
  refine ⟨hdone, hit.1, ?_⟩
  rw [Wait_of_done _ (by rw [hit.2, hdone]), hit.1]

/-- C6: `Add(count, worker)` with `count ≤ 0` registers the worker with a
replica count equal to `runtime.NumCPU()` at call time (the `numCPU`
argument), so `Start` launches that many copies; with `count ≥ 1` it
registers exactly `count` replicas, with no upper bound. -/
theorem C6_Add_count {ω δ : Type} (wg : Group ω δ) (numCPU : Nat) (c : Int) (w : ω)
    (h : wg.counts.length = wg.workers.length) :
    (wg.Add numCPU c w).counts =
      wg.counts ++ [if c ≤ 0 then (numCPU : Int) else c] ∧
    (wg.Add numCPU c w).workers = wg.workers ++ [w] ∧
    (wg.Add numCPU c w).total = wg.total + (if c ≤ 0 then numCPU else c.toNat) ∧
    (1 ≤ c → ((wg.Add numCPU c w).total : Int) = (wg.total : Int) + c) := by
  have hcounts : (wg.Add numCPU c w).counts =
      wg.counts ++ [if c ≤ 0 then (numCPU : Int) else c] := rfl
  have hworkers : (wg.Add numCPU c w).workers = wg.workers ++ [w] := rfl
  have htoNat : (if c ≤ 0 then (numCPU : Int) else c).toNat =
      if c ≤ 0 then numCPU else c.toNat := by
    by_cases hc : c ≤ 0 <;> simp [hc]
  have htotal : (wg.Add numCPU c w).total =
      wg.total + (if c ≤ 0 then numCPU else c.toNat) := by
    unfold Group.total
    rw [hcounts, hworkers, List.length_append]
    simp only [List.length_cons, List.length_nil, Nat.zero_add]
    rw [← h]
    have hfull : (wg.counts ++ [if c ≤ 0 then (numCPU : Int) else c]).length ≤
        wg.counts.length + 1 := by simp
    rw [List.take_of_length_le hfull, List.take_length, List.foldl_append]
    simp [htoNat]
  refine ⟨hcounts, hworkers, htotal, ?_⟩
  intro hc
  have hc0 : ¬ c ≤ 0 := by omega
  rw [htotal, if_neg hc0]
  push_cast
  rw [Int.toNat_of_nonneg (by omega)]

/-- C6 witness: adding to the empty group with count -1 and numCPU = 8. -/
theorem C6_witness :
    ((Group.mk [] [] [] : Group Unit Unit).counts.length =
      (Group.mk [] [] [] : Group Unit Unit).workers.length) ∧
    (((Group.mk [] [] [] : Group Unit Unit).Add 8 (-1) ()).counts =
        ([] : List Int) ++ [if (-1 : Int) ≤ 0 then (8 : Int) else -1] ∧
      ((Group.mk [] [] [] : Group Unit Unit).Add 8 (-1) ()).workers = [] ++ [()] ∧
      ((Group.mk [] [] [] : Group Unit Unit).Add 8 (-1) ()).total =
        (Group.mk [] [] [] : Group Unit Unit).total +
          (if (-1 : Int) ≤ 0 then 8 else (-1 : Int).toNat) ∧
      (1 ≤ (-1 : Int) →
        (((Group.mk [] [] [] : Group Unit Unit).Add 8 (-1) ()).total : Int) =
          ((Group.mk [] [] [] : Group Unit Unit).total : Int) + (-1))) :=
  ⟨rfl, C6_Add_count (Group.mk [] [] []) 8 (-1) () rfl⟩

/-- C7: signaling the Abort Signal is idempotent: a second Abort after an
Abort is absorbed, an Abort call when the signal is already set (including
when the run is already Done) is a no-op leaving all Instance state
unchanged, and an external Abort commutes with every collector step, so any
interleaving of Abort calls with the collector's error-triggered abort is
equivalent to at most one set operation. -/
theorem C7_abort_idempotent {α : Type} (s : Instance α) (ev : Event α) :
    s.Abort.Abort = s.Abort ∧
    (s.abort = true → s.Abort = s) ∧
    stepEvent s.Abort ev = (stepEvent s ev).Abort := by
  obtain ⟨a, dn, e⟩ := s
  refine ⟨?_, ?_, ?_⟩
  · cases a <;> simp [Instance.Abort]
  · intro h
    cases a
    · simp at h
    · simp [Instance.Abort]
  · cases ev with
    | recv e1 =>
      cases e1 with
      | none => cases a <;> simp [stepEvent, Instance.recvOne, Instance.Abort]
      | some e2 => cases a <;> simp [stepEvent, Instance.recvOne, Instance.Abort]
    | abortCall => cases a <;> simp [stepEvent, Instance.Abort]

/-- C7 witness: an already-aborted, already-done Instance. -/
theorem C7_witness :
    (⟨true, true, (none : Option (Err Nat))⟩ : Instance Nat).Abort.Abort =
      (⟨true, true, (none : Option (Err Nat))⟩ : Instance Nat).Abort ∧
    (⟨true, true, (none : Option (Err Nat))⟩ : Instance Nat).Abort =
      (⟨true, true, (none : Option (Err Nat))⟩ : Instance Nat) ∧
    stepEvent (⟨true, true, (none : Option (Err Nat))⟩ : Instance Nat).Abort
        Event.abortCall =
      (stepEvent (⟨true, true, (none : Option (Err Nat))⟩ : Instance Nat)
        Event.abortCall).Abort :=
  ⟨(C7_abort_idempotent ⟨true, true, none⟩ Event.abortCall).1,
   (C7_abort_idempotent ⟨true, true, none⟩ Event.abortCall).2.1 rfl,
   (C7_abort_idempotent ⟨true, true, none⟩ Event.abortCall).2.2⟩

/-- C8: `Run(data)` is observably equivalent to `Start(data)` immediately
followed by `Wait()` on the resulting Instance: on every run it returns the
same value as that composition, that value is exactly the run's final error
(so `Run` introduces no behaviour beyond the composition), and it always
returns rather than staying blocked. -/
theorem C8_Run_eq_Start_Wait {ω δ α : Type} (wg : Group ω δ) (d : δ)
    (tr : List (Event α)) (abort2 : Bool) :
    wg.RunModel d tr abort2 = wg.RunSpec d tr abort2 ∧
    wg.RunModel d tr abort2 =
      some (Instance.runModel Instance.init tr wg.cleaners d abort2).1.err := by
  constructor
  · rfl
  · exact Wait_of_done _ (runModel_fst_done _ _ _ _ _)

/-- C9: once a non-nil error has been recorded in the error slot, a
subsequent worker completion carrying nil never clears or changes it: a nil
receive is the identity on the Instance, a trace whose worker results are all
nil leaves the slot exactly as it was, and after any further trace whatsoever
the slot still holds a non-nil error. -/
theorem C9_error_never_cleared {α : Type} (s : Instance α) (tr : List (Event α))
    (e : Err α) (h : s.err = some e) :
    s.recvOne none = s ∧
    ((∀ r ∈ recvResults tr, r = none) → (loopLog s tr).1.err = some e) ∧
    (∃ e2 : Err α, (loopLog s tr).1.err = some e2) := by
  have herr : (loopLog s tr).1.err =
      match lastNonNil (recvResults tr) with
      | none => s.err
      | some e2 => some e2 := by
    rw [loopLog_fst_err, foldl_overwrite]
  refine ⟨rfl, ?_, ?_⟩
  · intro hall
    have hlast := (lastNonNil_eq_none_iff _).mpr hall
    rw [herr, hlast, h]
  · rw [herr]
    cases hlast : lastNonNil (recvResults tr) with
    | none => exact ⟨e, h⟩
    | some e2 => exact ⟨e2, rfl⟩

/-- C9 witness: an Instance holding error 5, then a nil completion. -/
theorem C9_witness :
    (⟨true, false, some (Err.workerFail 5)⟩ : Instance Nat).err =
      some (Err.workerFail 5) ∧
    ((⟨true, false, some (Err.workerFail 5)⟩ : Instance Nat).recvOne none =
      (⟨true, false, some (Err.workerFail 5)⟩ : Instance Nat) ∧
    ((∀ r ∈ recvResults [Event.recv (none : Option (Err Nat))], r = none) →
      (loopLog (⟨true, false, some (Err.workerFail 5)⟩ : Instance Nat)
        [Event.recv none]).1.err = some (Err.workerFail 5)) ∧
    (∃ e2 : Err Nat,
      (loopLog (⟨true, false, some (Err.workerFail 5)⟩ : Instance Nat)
        [Event.recv none]).1.err = some e2)) :=
  ⟨rfl, C9_error_never_cleared ⟨true, false, some (Err.workerFail 5)⟩
    [Event.recv none] (Err.workerFail 5) rfl⟩

/-- C10: calling Start on an empty Group (no worker ever registered) is
well-defined: zero worker tasks are launched (`total = 0`, so the collector
receives nothing), the collector immediately runs the registered cleaners in
order and sets the Done Signal, and Wait returns nil provided Abort was never
called on the Instance before Done. -/
theorem C10_empty_group {ω δ α : Type} (wg : Group ω δ) (d : δ)
    (h : wg.workers = []) :
    wg.total = 0 ∧
    (wg.StartRun d ([] : List (Event α)) false).1.done = true ∧
    (wg.StartRun d ([] : List (Event α)) false).1.Wait = some none ∧
    (wg.StartRun d ([] : List (Event α)) false).2.2 =
      (List.range wg.cleaners.length).map Action.cleanA ++ [Action.doneA] ∧
    (wg.StartRun d ([] : List (Event α)) false).2.1 =
      wg.cleaners.foldl (fun x c => c x) d := by
  have htotal : wg.total = 0 := by
    unfold Group.total
    rw [h]
    rfl
  refine ⟨htotal, rfl, rfl, ?_, runModel_snd_data _ _ _ _ _⟩
  have hlog := runModel_log (Instance.init (α := α)) ([] : List (Event α)) wg.cleaners d false
  simpa using hlog

/-- C10 witness: a group with no workers and one cleaner adding 1 to the
shared data. -/
theorem C10_witness :
    (Group.mk [] [] [fun (x : Nat) => x + 1] : Group Unit Nat).workers = [] ∧
    ((Group.mk [] [] [fun (x : Nat) => x + 1] : Group Unit Nat).total = 0 ∧
    ((Group.mk [] [] [fun (x : Nat) => x + 1] : Group Unit Nat).StartRun 0
        ([] : List (Event Nat)) false).1.done = true ∧
    ((Group.mk [] [] [fun (x : Nat) => x + 1] : Group Unit Nat).StartRun 0
        ([] : List (Event Nat)) false).1.Wait = some none ∧
    ((Group.mk [] [] [fun (x : Nat) => x + 1] : Group Unit Nat).StartRun 0
        ([] : List (Event Nat)) false).2.2 =
      (List.range (Group.mk [] [] [fun (x : Nat) => x + 1] :
          Group Unit Nat).cleaners.length).map Action.cleanA ++ [Action.doneA] ∧
    ((Group.mk [] [] [fun (x : Nat) => x + 1] : Group Unit Nat).StartRun 0
        ([] : List (Event Nat)) false).2.1 =
      (Group.mk [] [] [fun (x : Nat) => x + 1] :
        Group Unit Nat).cleaners.foldl (fun x c => c x) 0) :=
  ⟨rfl, C10_empty_group (Group.mk [] [] [fun (x : Nat) => x + 1]) 0 rfl⟩

end Workergroup
